import Mathlib

/-
Verification of the natural-language specification of
src/backfill-contract-events.js against the source.

The program is a three-stage Node streaming pipeline:
  LineSplitter (createAccountNumberParserStream)
  Batcher      (createAccountNumberBufferStream)
  Formatter    (createBackfillStream)
chained by backfillEvents.  Text is modelled as List Char; a schedule of
declined pushes is an oracle d : Nat -> Bool read at a running push counter
(d k = true means the k-th push returned false, i.e. was declined).
-/

/-- Text, as the JS code sees a string: a list of characters. -/
abbrev Str := List Char

/-- JS `str.split("\x6e")` on the newline separator: `splitNl s` is the list of
separator-free pieces of `s`; it is never empty, and an empty input yields one
empty piece, exactly as `"".split` does in JS. `consHead` prepends a character
to the first piece. -/
def consHead (c : Char) : List Str → List Str
  | [] => [[c]]
  | l :: ls => (c :: l) :: ls

def splitNl : Str → List Str
  | [] => [[]]
  | c :: cs => if c = '\n' then [] :: splitNl cs else consHead c (splitNl cs)

/-- Glue a prefix onto the head piece of a split (used to relate the split of
a concatenation to the splits of its parts). -/
def glue (x : Str) : List Str → List Str
  | [] => [x]
  | l :: ls => (x ++ l) :: ls

/-- `toLines` from createAccountNumberParserStream (src lines 76-80):
`str.split` on the separator, returning all complete pieces
(`lines.slice(0, -1)`) and the final fragment (`lines.slice(len-1)` joined). -/
def toLines (s : Str) : List Str × Str :=
  ((splitNl s).dropLast, (splitNl s).getLastD [])

lemma consHead_eq_glue (c : Char) (ls : List Str) : consHead c ls = glue [c] ls := by
  cases ls <;> rfl

lemma glue_ne_nil (x : Str) (ls : List Str) : glue x ls ≠ [] := by
  cases ls <;> simp [glue]

lemma splitNl_ne_nil (s : Str) : splitNl s ≠ [] := by
  cases s with
  | nil => simp [splitNl]
  | cons c cs =>
      simp only [splitNl]
      split
      · simp
      · exact consHead_eq_glue c (splitNl cs) ▸ glue_ne_nil [c] (splitNl cs)

lemma glue_nil_of_ne_nil {ls : List Str} (h : ls ≠ []) : glue [] ls = ls := by
  cases ls with
  | nil => exact absurd rfl h
  | cons l t => simp [glue]

lemma getLastD_irrel {α : Type} : ∀ (l : List α) (d e : α), l ≠ [] → l.getLastD d = l.getLastD e := by
  intro l
  induction l with
  | nil => intro d e h; exact absurd rfl h
  | cons a t _ =>
      intro d e _
      cases t with
      | nil => rfl
      | cons b u => rw [List.getLastD_cons d a (b :: u), List.getLastD_cons e a (b :: u)]

lemma getLastD_append_of_ne_nil {α : Type} : ∀ (xs ys : List α) (d : α), ys ≠ [] → (xs ++ ys).getLastD d = ys.getLastD d := by
  intro xs
  induction xs with
  | nil => intro ys d _; rfl
  | cons a t ih =>
      intro ys d hy
      have h1 : (a :: (t ++ ys)).getLastD d = (t ++ ys).getLastD a := List.getLastD_cons d a (t ++ ys)
      rw [List.cons_append, h1, ih ys a hy]
      exact getLastD_irrel ys a d hy

lemma dropLast_append_of_ne_nil' {α : Type} : ∀ (xs ys : List α), ys ≠ [] → (xs ++ ys).dropLast = xs ++ ys.dropLast := by
  intro xs
  induction xs with
  | nil => intro ys _; rfl
  | cons a t ih =>
      intro ys hy
      have htys : t ++ ys ≠ [] := by
        intro h
        exact hy (List.append_eq_nil.mp h).2
      cases hts : t ++ ys with
      | nil => exact absurd hts htys
      | cons b u =>
          simp only [List.cons_append, hts, List.dropLast_cons₂]
          rw [← hts, ih ys hy]

lemma glue_append (x : Str) (u v : List Str) (hu : u ≠ []) : glue x (u ++ v) = glue x u ++ v := by
  cases u with
  | nil => exact absurd rfl hu
  | cons h t => simp [glue]

lemma glue_glue (x y : Str) (l : List Str) : glue x (glue y l) = glue (x ++ y) l := by
  cases l <;> simp [glue]

lemma splitNl_cons_nl (cs : Str) : splitNl ('\n' :: cs) = [] :: splitNl cs := by
  simp [splitNl]

lemma splitNl_cons_ne (c : Char) (cs : Str) (hc : c ≠ '\n') :
    splitNl (c :: cs) = glue [c] (splitNl cs) := by
  simp [splitNl, hc, consHead_eq_glue]

/-- How the split of a concatenation decomposes: the complete pieces of the
left part, then the split of the right part with the left final fragment glued
onto its head. -/
lemma splitNl_append : ∀ (a b : Str),
    splitNl (a ++ b) = (splitNl a).dropLast ++ glue ((splitNl a).getLastD []) (splitNl b) := by
  intro a
  induction a with
  | nil =>
      intro b
      simp [splitNl, glue_nil_of_ne_nil (splitNl_ne_nil b)]
  | cons c cs ih =>
      intro b
      rcases hcs : splitNl cs with _ | ⟨x1, xs⟩
      · exact absurd hcs (splitNl_ne_nil cs)
      by_cases hc : c = '\n'
      · subst hc
        rw [List.cons_append, splitNl_cons_nl, splitNl_cons_nl, ih b, hcs]
        simp only [List.dropLast_cons₂, List.getLastD_cons, List.cons_append]
      · rw [List.cons_append, splitNl_cons_ne c _ hc, splitNl_cons_ne c _ hc, ih b, hcs]
        cases xs with
        | nil => rcases splitNl b with _ | ⟨b1, bs⟩ <;> simp [glue]
        | cons x2 xs2 =>
            simp only [glue, List.dropLast_cons₂, List.getLastD_cons, List.cons_append,
              List.nil_append, List.singleton_append]

/-- A separator-free string splits into itself alone. -/
lemma splitNl_no_nl {s : Str} (h : '\n' ∉ s) : splitNl s = [s] := by
  induction s with
  | nil => rfl
  | cons c cs ih =>
      have hc : c ≠ '\n' := fun e => h (by simp [e])
      rw [splitNl_cons_ne c cs hc, ih (fun m => h (List.mem_cons_of_mem c m))]
      rfl

/-- The final fragment of a split never contains the separator. -/
lemma splitNl_last_no_nl : ∀ s : Str, '\n' ∉ (splitNl s).getLastD [] := by
  intro s
  induction s with
  | nil => simp [splitNl]
  | cons c cs ih =>
      by_cases hc : c = '\n'
      · subst hc
        rw [splitNl_cons_nl, List.getLastD_cons]
        exact ih
      · rw [splitNl_cons_ne c cs hc]
        rcases hX : splitNl cs with _ | ⟨x1, xs⟩
        · exact absurd hX (splitNl_ne_nil cs)
        rw [hX] at ih
        cases xs with
        | nil =>
            simp only [glue, List.singleton_append, List.getLastD_cons] at ih ⊢
            simp only [List.getLastD] at ih ⊢
            simp [List.mem_cons, hc]
            exact ⟨fun e => hc e.symm, ih⟩
        | cons x2 xs2 =>
            simp only [glue, List.singleton_append, List.getLastD_cons] at ih ⊢
            exact ih

/-- One call of the transform of createAccountNumberParserStream (src 88-99):
prepend the Carry `rest` to the chunk, split with `toLines`, push the complete
lines downstream as one group and keep the final fragment as the new Carry.
When the push is declined the source waits for the ready event before invoking
its callback; the pushed group is the same either way. -/
def parserTransform (rest chunk : Str) : List Str × Str :=
  toLines (rest ++ chunk)

/-- The parser stage fed a list of chunks from Carry state `rest`: the pushed
groups (exactly one group of lines per chunk, possibly empty) and the final
Carry. -/
def parserRun : Str → List Str → List (List Str) × Str
  | rest, [] => ([], rest)
  | rest, chunk :: chunks =>
      let p := parserTransform rest chunk
      let r := parserRun p.2 chunks
      (p.1 :: r.1, r.2)

/-- The flush of createAccountNumberParserStream (src 101-115): with a
non-empty Carry, split it again; a non-empty final fragment throws the error
`Left over data` (the MalformedInputError of the specification); otherwise the
complete lines are pushed as one more group.  An empty Carry pushes nothing. -/
def parserFlush (rest : Str) : Except String (List (List Str)) :=
  if rest.length > 0 then
    let p := toLines rest
    if p.2 ≠ [] then Except.error "Left over data"
    else Except.ok [p.1]
  else Except.ok []

lemma parserRun_cons (rest chunk : Str) (chunks : List Str) :
    parserRun rest (chunk :: chunks)
      = ((parserTransform rest chunk).1 :: (parserRun (parserTransform rest chunk).2 chunks).1,
         (parserRun (parserTransform rest chunk).2 chunks).2) := rfl

lemma toLines_snd_no_nl (s : Str) : '\n' ∉ (toLines s).2 :=
  splitNl_last_no_nl s

/-- What the parser run computes: the pushed lines are exactly the complete
pieces of the whole text seen so far, and the Carry is its final fragment. -/
lemma parserRun_join : ∀ (chunks : List Str) (rest : Str), '\n' ∉ rest →
    (parserRun rest chunks).1.flatten = (splitNl (rest ++ chunks.flatten)).dropLast ∧
    (parserRun rest chunks).2 = (splitNl (rest ++ chunks.flatten)).getLastD [] := by
  intro chunks
  induction chunks with
  | nil =>
      intro rest h
      simp only [parserRun, List.flatten_nil, List.append_nil]
      rw [splitNl_no_nl h]
      exact ⟨rfl, rfl⟩
  | cons chunk chunks ih =>
      intro rest hrest
      have hp2 : '\n' ∉ (parserTransform rest chunk).2 := toLines_snd_no_nl (rest ++ chunk)
      obtain ⟨ih1, ih2⟩ := ih (parserTransform rest chunk).2 hp2
      have key : splitNl ((parserTransform rest chunk).2 ++ chunks.flatten)
          = glue ((parserTransform rest chunk).2) (splitNl chunks.flatten) := by
        rw [splitNl_append, splitNl_no_nl hp2]
        rfl
      have hsplit : splitNl (rest ++ (chunk :: chunks).flatten)
          = (splitNl (rest ++ chunk)).dropLast
              ++ glue ((parserTransform rest chunk).2) (splitNl chunks.flatten) := by
        have : rest ++ (chunk :: chunks).flatten = (rest ++ chunk) ++ chunks.flatten := by
          simp [List.flatten_cons, List.append_assoc]
        rw [this, splitNl_append]
        rfl
      rw [parserRun_cons]
      constructor
      · show (parserTransform rest chunk).1 ++ (parserRun (parserTransform rest chunk).2 chunks).1.flatten = _
        rw [ih1, key, hsplit,
            dropLast_append_of_ne_nil' _ _ (glue_ne_nil _ _)]
        rfl
      · show (parserRun (parserTransform rest chunk).2 chunks).2 = _
        rw [ih2, key, hsplit,
            getLastD_append_of_ne_nil _ _ _ (glue_ne_nil _ _)]

/-- The parser on a full run from an empty Carry. -/
lemma parserRun_records (chunks : List Str) :
    (parserRun [] chunks).1.flatten = (splitNl chunks.flatten).dropLast ∧
    (parserRun [] chunks).2 = (splitNl chunks.flatten).getLastD [] := by
  simpa using parserRun_join chunks [] (by simp)

/-- `pushAccountNumbersInBatches` from createAccountNumberBufferStream
(src 122-136): while at least `B` numbers are buffered, push one batch-size
slice and drop it from the buffer.  A declined push (`d k`) ends the loop; the
source then waits for the ready event and re-invokes the same function on the
remaining numbers, which continues the slicing from the exact same point, so
both branches of the decline test continue identically.  Returns the pushed
batches, the residual numbers handed to the callback, and the next push
counter.  (With `B = 0` the JS loop would never terminate; the model returns
the buffer unchanged there, and every claim assumes a positive batch size.) -/
def pushAccountNumbersInBatches (B : Nat) (d : Nat → Bool) : Nat → List Str → List (List Str) × List Str × Nat
  | k, numbers =>
    if h : 0 < B ∧ B ≤ numbers.length then
      let r := pushAccountNumbersInBatches B d (k + 1) (numbers.drop B)
      if d k then (numbers.take B :: r.1, r.2)
      else (numbers.take B :: r.1, r.2)
    else ([], numbers, k)
  termination_by _ numbers => numbers.length
  decreasing_by simp only [List.length_drop]; omega

lemma pushBatches_eq (B : Nat) (d : Nat → Bool) (k : Nat) (numbers : List Str) :
    pushAccountNumbersInBatches B d k numbers
      = if 0 < B ∧ B ≤ numbers.length then
          (numbers.take B :: (pushAccountNumbersInBatches B d (k + 1) (numbers.drop B)).1,
           (pushAccountNumbersInBatches B d (k + 1) (numbers.drop B)).2)
        else ([], numbers, k) := by
  rw [pushAccountNumbersInBatches]
  by_cases h : 0 < B ∧ B ≤ numbers.length
  · rw [dif_pos h, if_pos h, ite_self]
  · rw [dif_neg h, if_neg h]

/-- The emissions of the batch-pushing loop: the batches join with the
residual back to the input, every batch has length exactly `B`, and the
residual is shorter than `B` — for every decline schedule. -/
lemma pushBatches_spec (B : Nat) (hB : 0 < B) (d : Nat → Bool) :
    ∀ n k (numbers : List Str), numbers.length ≤ n →
      ((pushAccountNumbersInBatches B d k numbers).1.flatten
          ++ (pushAccountNumbersInBatches B d k numbers).2.1 = numbers)
      ∧ (∀ b ∈ (pushAccountNumbersInBatches B d k numbers).1, b.length = B)
      ∧ ((pushAccountNumbersInBatches B d k numbers).2.1.length < B) := by
  intro n
  induction n with
  | zero =>
      intro k numbers hlen
      have hnil : numbers = [] := List.length_eq_zero.mp (Nat.le_zero.mp hlen)
      subst hnil
      rw [pushBatches_eq]
      have : ¬(0 < B ∧ B ≤ ([] : List Str).length) := by simp; omega
      rw [if_neg this]
      refine ⟨rfl, by simp, by simpa using hB⟩
  | succ n ih =>
      intro k numbers hlen
      rw [pushBatches_eq]
      by_cases h : 0 < B ∧ B ≤ numbers.length
      · rw [if_pos h]
        have hdrop : (numbers.drop B).length ≤ n := by
          simp only [List.length_drop]
          omega
        obtain ⟨ih1, ih2, ih3⟩ := ih (k + 1) (numbers.drop B) hdrop
        refine ⟨?_, ?_, ih3⟩
        · simp only [List.flatten_cons, List.append_assoc, ih1]
          exact List.take_append_drop B numbers
        · intro b hb
          rcases List.mem_cons.mp hb with hb | hb
          · subst hb
            simp [List.length_take]
            omega
          · exact ih2 b hb
      · rw [if_neg h]
        have : numbers.length < B := by
          rcases Nat.lt_or_ge numbers.length B with hlt | hge
          · exact hlt
          · exact absurd ⟨hB, hge⟩ h
        exact ⟨rfl, by simp, this⟩

/-- The transform of createAccountNumberBufferStream (src 142-149): append the
incoming group to the buffered numbers, then push full batches. -/
def batcherTransform (B : Nat) (d : Nat → Bool) (k : Nat) (numbers chunk : List Str) :
    List (List Str) × List Str × Nat :=
  pushAccountNumbersInBatches B d k (numbers ++ chunk)

/-- The buffer stage fed a list of groups: all pushed batches in order, then
the residual buffer and the next push counter. -/
def batcherRun (B : Nat) (d : Nat → Bool) : Nat → List Str → List (List Str) → List (List Str) × List Str × Nat
  | k, numbers, [] => ([], numbers, k)
  | k, numbers, g :: gs =>
      let r := batcherTransform B d k numbers g
      let r2 := batcherRun B d r.2.2 r.2.1 gs
      (r.1 ++ r2.1, r2.2)

/-- The flush of createAccountNumberBufferStream (src 150-158): push the
residual numbers as one final batch when non-empty.  The return value of that
push is ignored and the callback is invoked at once. -/
def batcherFlush (numbers : List Str) : List (List Str) :=
  if numbers.length > 0 then [numbers] else []

lemma batcherRun_cons (B : Nat) (d : Nat → Bool) (k : Nat) (numbers g : List Str) (gs : List (List Str)) :
    batcherRun B d k numbers (g :: gs)
      = ((batcherTransform B d k numbers g).1
            ++ (batcherRun B d (batcherTransform B d k numbers g).2.2
                  (batcherTransform B d k numbers g).2.1 gs).1,
         (batcherRun B d (batcherTransform B d k numbers g).2.2
            (batcherTransform B d k numbers g).2.1 gs).2) := rfl

lemma batcherRun_spec (B : Nat) (hB : 0 < B) (d : Nat → Bool) :
    ∀ (gs : List (List Str)) (k : Nat) (numbers : List Str), numbers.length < B →
      ((batcherRun B d k numbers gs).1.flatten
          ++ (batcherRun B d k numbers gs).2.1 = numbers ++ gs.flatten)
      ∧ (∀ b ∈ (batcherRun B d k numbers gs).1, b.length = B)
      ∧ ((batcherRun B d k numbers gs).2.1.length < B) := by
  intro gs
  induction gs with
  | nil =>
      intro k numbers hlen
      exact ⟨by simp [batcherRun], by simp [batcherRun], by simpa [batcherRun] using hlen⟩
  | cons g gs ih =>
      intro k numbers hlen
      obtain ⟨p1, p2, p3⟩ :=
        pushBatches_spec B hB d (numbers ++ g).length k (numbers ++ g) le_rfl
      have p1' : (batcherTransform B d k numbers g).1.flatten
          ++ (batcherTransform B d k numbers g).2.1 = numbers ++ g := p1
      have p2' : ∀ b ∈ (batcherTransform B d k numbers g).1, b.length = B := p2
      obtain ⟨q1, q2, q3⟩ :=
        ih (batcherTransform B d k numbers g).2.2 (batcherTransform B d k numbers g).2.1 p3
      rw [batcherRun_cons]
      refine ⟨?_, ?_, q3⟩
      · rw [List.flatten_append, List.append_assoc, q1, ← List.append_assoc, p1']
        simp [List.flatten_cons, List.append_assoc]
      · intro b hb
        rcases List.mem_append.mp hb with hb | hb
        · exact p2' b hb
        · exact q2 b hb

/-- `printSql` from createBackfillStream (src 163-182): walk the statements in
order, pushing each line with a newline appended.  When a push is declined
(`d k`) the loop returns after registering a ready listener whose handler
re-invokes `printSql` on `statements.slice(i+1)` — the statements after the
line just pushed — so both branches of the decline test continue with the
remaining statements.  Returns the pushed lines and the next push counter. -/
def printSql (d : Nat → Bool) : Nat → List Str → List Str × Nat
  | k, [] => ([], k)
  | k, line :: statements =>
      if d k then
        ((line ++ ['\n']) :: (printSql d (k + 1) statements).1,
         (printSql d (k + 1) statements).2)
      else
        ((line ++ ['\n']) :: (printSql d (k + 1) statements).1,
         (printSql d (k + 1) statements).2)

/-- Whatever the decline schedule, `printSql` pushes exactly one
newline-terminated line per statement, in order. -/
lemma printSql_fst (d : Nat → Bool) :
    ∀ (statements : List Str) (k : Nat),
      (printSql d k statements).1 = statements.map (fun s => s ++ ['\n']) := by
  intro statements
  induction statements with
  | nil => intro k; rfl
  | cons line rest ih =>
      intro k
      by_cases h : d k
      · simp only [printSql, if_pos h, ih (k + 1), List.map_cons]
      · simp only [printSql, if_neg h, ih (k + 1), List.map_cons]

/-- An event visible at the Formatter boundary: a line written to the output
stream, or a message reported to the logger collaborator. -/
inductive BEv
  | write (line : Str)
  | log (msg : Str)
deriving DecidableEq, Repr

/-- The progress message of createBackfillStream (src 189). -/
def backfillMsg (n : Nat) : Str :=
  "Back-filling ".data ++ (Nat.repr n).data ++ " account numbers".data

/-- The transform of createBackfillStream (src 188-192) as an ordered event
trace: the source first calls the logger with the batch count and only then
runs `printSql` over the batch.  Returns the trace and the next push
counter. -/
def backfillTransform (d : Nat → Bool) (k : Nat) (numbers : List Str) : List BEv × Nat :=
  (BEv.log (backfillMsg numbers.length) :: (printSql d k numbers).1.map BEv.write,
   (printSql d k numbers).2)

lemma backfillTransform_fst (d : Nat → Bool) (k : Nat) (numbers : List Str) :
    (backfillTransform d k numbers).1
      = BEv.log (backfillMsg numbers.length)
          :: numbers.map (fun s => BEv.write (s ++ ['\n'])) := by
  simp [backfillTransform, printSql_fst, List.map_map]

/-- The full pipeline of backfillEvents (src 62-70) as a data-flow function:
the parser consumes the chunks and flushes its Carry, the buffer stage
batches all pushed groups and flushes its residual, and the backfill stage
prints every batch in order.  A flush error aborts with the thrown error. -/
def pipelineRun (B : Nat) (d : Nat → Bool) (chunks : List Str) : Except String (List Str) :=
  match parserFlush (parserRun [] chunks).2 with
  | Except.error e => Except.error e
  | Except.ok fgroups =>
      let groups := (parserRun [] chunks).1 ++ fgroups
      let b := batcherRun B d 0 [] groups
      let batches := b.1 ++ batcherFlush b.2.1
      Except.ok ((batches.map (fun batch => (printSql d 0 batch).1)).flatten)

/-- The result of the argument check at src 43-48. -/
inductive CliResult
  | usageError (stderrLine : String) (exitCode : Nat)
  | run (args : List String)
deriving DecidableEq, Repr

/-- The usage line printed on standard error (src 44); `argv.getD 1` is the
script path `process.argv[1]`. -/
def usageLine (argv : List String) : String :=
  "Usage: " ++ argv.getD 1 "undefined" ++ " <in> <sql> <log>"

/-- The program entry (src 43-48): with fewer than five entries in
`process.argv` (node, the script path and three positional arguments) the
program prints the usage line on standard error and exits with code 1 before
`main` is called, so no file is opened and no stage is constructed; otherwise
`main` runs on `process.argv.slice(2)`. -/
def cliMain (argv : List String) : CliResult :=
  if argv.length < 5 then CliResult.usageError (usageLine argv) 1
  else CliResult.run (argv.drop 2)

/-- An action of the buffer stage as the closure protocol sees it: a push of
one unit downstream recording whether it was accepted (what `push` returned),
the end-of-stream push, a wait for the ready event, and the invocation of the
completion callback that lets the stage close. -/
inductive Act
  | pushUnit (batch : List Str) (accepted : Bool)
  | pushEOF
  | waitReady
  | done
deriving DecidableEq, Repr

/-- The flush of createAccountNumberBufferStream (src 150-158) as an action
trace: the residual batch is pushed — the acceptance returned by `push` is
discarded by the source — then end-of-stream is pushed and the callback runs
at once.  No ready listener is ever registered inside flush. -/
def bufferFlushTrace (d : Nat → Bool) (k : Nat) (numbers : List Str) : List Act :=
  (if numbers.length > 0 then [Act.pushUnit numbers (!(d k))] else [])
    ++ [Act.pushEOF, Act.done]

/-- A non-empty text that does not end in the separator leaves a non-empty
final fragment. -/
lemma splitNl_last_ne_nil : ∀ (s : Str), s ≠ [] → s.getLast? ≠ some '\n' →
    (splitNl s).getLastD [] ≠ [] := by
  intro s
  induction s with
  | nil => intro h; exact absurd rfl h
  | cons c cs ih =>
      intro _ hlast
      cases cs with
      | nil =>
          by_cases hc : c = '\n'
          · subst hc
            exact absurd (by simp) hlast
          · rw [splitNl_cons_ne c [] hc]
            simp [splitNl, glue, List.getLastD_cons]
      | cons c2 cs2 =>
          have hlast2 : (c2 :: cs2).getLast? ≠ some '\n' := by
            rwa [List.getLast?_cons_cons] at hlast
          have ihx := ih (by simp) hlast2
          by_cases hc : c = '\n'
          · subst hc
            rw [splitNl_cons_nl, List.getLastD_cons]
            exact ihx
          · rw [splitNl_cons_ne c _ hc]
            rcases hX : splitNl (c2 :: cs2) with _ | ⟨x1, xs⟩
            · exact absurd hX (splitNl_ne_nil _)
            rw [hX] at ihx
            cases xs with
            | nil => simp [glue, List.getLastD_cons]
            | cons x2 xs2 =>
                simp only [glue, List.singleton_append, List.getLastD_cons] at ihx ⊢
                exact ihx

/-- Nothing the buffer stage ever emits — loop batches or the flushed
residual — is an empty batch. -/
lemma batcher_no_empty_batch (B : Nat) (hB : 0 < B) (d : Nat → Bool) (groups : List (List Str)) :
    [] ∉ ((batcherRun B d 0 [] groups).1 ++ batcherFlush (batcherRun B d 0 [] groups).2.1) := by
  obtain ⟨-, e2, -⟩ := batcherRun_spec B hB d groups 0 [] (by simpa using hB)
  intro hmem
  rcases List.mem_append.mp hmem with hm | hm
  · have hz := e2 [] hm
    simp only [List.length_nil] at hz
    omega
  · unfold batcherFlush at hm
    by_cases h : (batcherRun B d 0 [] groups).2.1.length > 0
    · rw [if_pos h] at hm
      have he : ([] : List Str) = (batcherRun B d 0 [] groups).2.1 := by simpa using hm
      rw [← he] at h
      simp at h
    · rw [if_neg h] at hm
      simp at hm

/-- Claim C4 (confirmed): chunk-boundary independence — any two ways of
cutting the same text into chunks make the LineSplitter emit the identical
Record sequence, and leave the identical Carry, so end-of-input behaves the
same as well. -/
theorem chunk_boundary_independence (chunks1 chunks2 : List Str)
    (h : chunks1.flatten = chunks2.flatten) :
    (parserRun [] chunks1).1.flatten = (parserRun [] chunks2).1.flatten ∧
    (parserRun [] chunks1).2 = (parserRun [] chunks2).2 := by
  obtain ⟨a1, a2⟩ := parserRun_records chunks1
  obtain ⟨b1, b2⟩ := parserRun_records chunks2
  rw [a1, a2, b1, b2, h]
  exact ⟨rfl, rfl⟩

theorem chunk_boundary_independence_witness :
    (parserRun [] [['a', '\n', 'b', '\n']]).1.flatten
        = (parserRun [] [['a'], ['\n'], ['b'], ['\n']]).1.flatten ∧
    (parserRun [] [['a', '\n', 'b', '\n']]).2
        = (parserRun [] [['a'], ['\n'], ['b'], ['\n']]).2 :=
  chunk_boundary_independence [['a', '\n', 'b', '\n']] [['a'], ['\n'], ['b'], ['\n']] (by rfl)

/-- Claim C9 (confirmed): after any number of transform steps the Carry holds
no separator; at end-of-input the flush either pushes nothing (empty Carry) or
throws `Left over data`, so the branch that would push lines parsed from a
non-empty Carry is unreachable and the splitter never emits a Record during
flush. -/
theorem carry_no_separator_flush_unreachable (chunks : List Str) :
    '\n' ∉ (parserRun [] chunks).2 ∧
    parserFlush (parserRun [] chunks).2
      = (if (parserRun [] chunks).2 = [] then Except.ok []
         else Except.error "Left over data") := by
  obtain ⟨-, h2⟩ := parserRun_records chunks
  have hno : '\n' ∉ (parserRun [] chunks).2 := by
    rw [h2]
    exact splitNl_last_no_nl _
  refine ⟨hno, ?_⟩
  by_cases hr : (parserRun [] chunks).2 = []
  · rw [if_pos hr, hr]
    rfl
  · rw [if_neg hr]
    have hlen : 0 < (parserRun [] chunks).2.length := List.length_pos.mpr hr
    have hto : (toLines (parserRun [] chunks).2).2 = (parserRun [] chunks).2 := by
      simp [toLines, splitNl_no_nl hno, List.getLastD_cons]
    simp [parserFlush, hlen, hto, hr]

/-- Claim C3 (confirmed): an input whose final record lacks the trailing
separator leaves a non-empty Carry, the end-of-input flush throws
`Left over data` — the MalformedInputError of the specification — and the
whole pipeline terminates with that failure, never with silent truncation. -/
theorem malformed_tail_fails (B : Nat) (d : Nat → Bool) (chunks : List Str)
    (hne : chunks.flatten ≠ []) (hlast : chunks.flatten.getLast? ≠ some '\n') :
    parserFlush (parserRun [] chunks).2 = Except.error "Left over data" ∧
    pipelineRun B d chunks = Except.error "Left over data" := by
  obtain ⟨-, h2⟩ := parserRun_records chunks
  have hrest : (parserRun [] chunks).2 ≠ [] := by
    rw [h2]
    exact splitNl_last_ne_nil chunks.flatten hne hlast
  have hno : '\n' ∉ (parserRun [] chunks).2 := by
    rw [h2]
    exact splitNl_last_no_nl _
  have hflush : parserFlush (parserRun [] chunks).2 = Except.error "Left over data" := by
    have hlen : 0 < (parserRun [] chunks).2.length := List.length_pos.mpr hrest
    have hto : (toLines (parserRun [] chunks).2).2 = (parserRun [] chunks).2 := by
      simp [toLines, splitNl_no_nl hno, List.getLastD_cons]
    simp [parserFlush, hlen, hto, hrest]
  refine ⟨hflush, ?_⟩
  simp [pipelineRun, hflush]

theorem malformed_tail_fails_witness :
    parserFlush (parserRun [] [['1', '\n', '2', '\n', '3']]).2
        = Except.error "Left over data" ∧
    pipelineRun 2 (fun _ => false) [['1', '\n', '2', '\n', '3']]
        = Except.error "Left over data" :=
  malformed_tail_fails 2 (fun _ => false) [['1', '\n', '2', '\n', '3']]
    (by decide) (by decide)

/-- Claim C5 (confirmed): however the N records arrive in groups and whatever
the decline schedule, with batch size B ≥ 1 the emitted batch lengths are
B, B, …, N mod B in order — the final short batch coming from the end-of-input
flush and omitted when N mod B = 0 — and no emitted batch is ever empty. -/
theorem batch_boundary_policy (B : Nat) (d : Nat → Bool) (groups : List (List Str))
    (hB : 0 < B) :
    (((batcherRun B d 0 [] groups).1
        ++ batcherFlush (batcherRun B d 0 [] groups).2.1).map List.length
      = List.replicate (groups.flatten.length / B) B
          ++ (if groups.flatten.length % B = 0 then []
              else [groups.flatten.length % B])) ∧
    [] ∉ ((batcherRun B d 0 [] groups).1
        ++ batcherFlush (batcherRun B d 0 [] groups).2.1) := by
  obtain ⟨e1, e2, e3⟩ := batcherRun_spec B hB d groups 0 [] (by simpa using hB)
  refine ⟨?_, batcher_no_empty_batch B hB d groups⟩
  have hmap : (batcherRun B d 0 [] groups).1.map List.length
      = List.replicate (batcherRun B d 0 [] groups).1.length B := by
    have hmem : ∀ b ∈ (batcherRun B d 0 [] groups).1.map List.length, b = B := by
      intro b hb
      obtain ⟨x, hx, hxb⟩ := List.mem_map.mp hb
      exact hxb ▸ e2 x hx
    have := List.eq_replicate_of_mem hmem
    simpa using this
  have hsum : (batcherRun B d 0 [] groups).1.flatten.length
      = (batcherRun B d 0 [] groups).1.length * B := by
    rw [List.length_flatten, hmap, List.sum_replicate, smul_eq_mul]
  have htot : (batcherRun B d 0 [] groups).1.flatten.length
      + (batcherRun B d 0 [] groups).2.1.length = groups.flatten.length := by
    have := congrArg List.length e1
    simpa [List.length_append] using this
  have hN : groups.flatten.length
      = (batcherRun B d 0 [] groups).2.1.length
          + (batcherRun B d 0 [] groups).1.length * B := by
    omega
  have hmod : groups.flatten.length % B = (batcherRun B d 0 [] groups).2.1.length := by
    rw [hN, Nat.add_mul_mod_self_right]
    exact Nat.mod_eq_of_lt e3
  have hdiv : groups.flatten.length / B = (batcherRun B d 0 [] groups).1.length := by
    rw [hN, Nat.add_mul_div_right _ _ hB, Nat.div_eq_of_lt e3, Nat.zero_add]
  rw [List.map_append, hmap, hdiv, hmod]
  by_cases hz : (batcherRun B d 0 [] groups).2.1.length = 0
  · have : (batcherRun B d 0 [] groups).2.1 = [] := List.length_eq_zero.mp hz
    rw [hz, if_pos rfl]
    simp [batcherFlush, this]
  · rw [if_neg hz]
    have hpos : (batcherRun B d 0 [] groups).2.1.length > 0 := Nat.pos_of_ne_zero hz
    simp [batcherFlush, hpos]

theorem batch_boundary_policy_witness :
    (((batcherRun 2 (fun _ => false) 0 [] [[['1'], ['2'], ['3'], ['4'], ['5']]]).1
        ++ batcherFlush
            (batcherRun 2 (fun _ => false) 0 [] [[['1'], ['2'], ['3'], ['4'], ['5']]]).2.1).map List.length
      = List.replicate (([[['1'], ['2'], ['3'], ['4'], ['5']]] : List (List Str)).flatten.length / 2) 2
          ++ (if ([[['1'], ['2'], ['3'], ['4'], ['5']]] : List (List Str)).flatten.length % 2 = 0 then []
              else [([[['1'], ['2'], ['3'], ['4'], ['5']]] : List (List Str)).flatten.length % 2])) ∧
    [] ∉ ((batcherRun 2 (fun _ => false) 0 [] [[['1'], ['2'], ['3'], ['4'], ['5']]]).1
        ++ batcherFlush
            (batcherRun 2 (fun _ => false) 0 [] [[['1'], ['2'], ['3'], ['4'], ['5']]]).2.1) :=
  batch_boundary_policy 2 (fun _ => false) [[['1'], ['2'], ['3'], ['4'], ['5']]] (by decide)

/-- Claim C6 (confirmed): for every batch and every decline schedule the
Formatter pushes exactly one newline-terminated line per Record, in Record
order — a declined write suspends and then resumes at the following line, so
the batch is never restarted and no line is duplicated or skipped. -/
theorem formatter_resumption_exactly_once (d : Nat → Bool) (k : Nat) (batch : List Str) :
    (printSql d k batch).1 = batch.map (fun s => s ++ ['\n']) :=
  printSql_fst d batch k

/-- Claim C7 counterexample: on the batch holding the single record "1" the
source trace is log-then-write, not the write-then-log order the claim
states. -/
theorem formatter_order_counterexample :
    (backfillTransform (fun _ => false) 0 [['1']]).1
      ≠ ([['1']] : List Str).map (fun s => BEv.write (s ++ ['\n']))
          ++ [BEv.log (backfillMsg ([['1']] : List Str).length)] := by
  decide

/-- Claim C7 as amended (proved): for each consumed batch the Formatter first
reports "Back-filling <count> account numbers" to the logger, where count is
the number of Records in the batch, and then writes one newline-terminated
output line per Record, in Record order. -/
theorem formatter_log_then_write (d : Nat → Bool) (k : Nat) (batch : List Str) :
    (backfillTransform d k batch).1
      = BEv.log (backfillMsg batch.length)
          :: batch.map (fun s => BEv.write (s ++ ['\n'])) :=
  backfillTransform_fst d k batch

/-- Claim C8 (confirmed): with fewer than the three required positional
arguments — `process.argv` shorter than five entries — the program produces
the usage line for standard error and exit code 1, and `main` is never
invoked: the result carries no argument list to process, so no file is opened
and no stage is constructed. -/
theorem usage_error_exits_without_processing (argv : List String) (h : argv.length < 5) :
    cliMain argv = CliResult.usageError (usageLine argv) 1 := by
  simp [cliMain, h]

theorem usage_error_exits_witness :
    cliMain ["node", "script.js", "in.txt"]
      = CliResult.usageError (usageLine ["node", "script.js", "in.txt"]) 1 :=
  usage_error_exits_without_processing ["node", "script.js", "in.txt"] (by decide)

/-- Claim C10 (confirmed): a chunk without a separator still makes the
LineSplitter push a group — the empty list — downstream, one group per chunk
always; the Batcher absorbs an empty group as a no-op, emitting nothing and
leaving its buffer unchanged; and no empty batch ever reaches the Formatter,
the end-of-input flush included. -/
theorem empty_group_noop :
    (∀ rest chunk : Str, '\n' ∉ rest → '\n' ∉ chunk → (parserTransform rest chunk).1 = [])
    ∧ (∀ (rest : Str) (chunks : List Str), (parserRun rest chunks).1.length = chunks.length)
    ∧ (∀ (B : Nat) (d : Nat → Bool) (k : Nat) (numbers : List Str), numbers.length < B →
        batcherTransform B d k numbers [] = ([], numbers, k))
    ∧ (∀ (B : Nat) (d : Nat → Bool) (groups : List (List Str)), 0 < B →
        [] ∉ ((batcherRun B d 0 [] groups).1
            ++ batcherFlush (batcherRun B d 0 [] groups).2.1)) := by
  refine ⟨?_, ?_, ?_, ?_⟩
  · intro rest chunk hr hc
    have hno : '\n' ∉ rest ++ chunk := by
      intro hm
      rcases List.mem_append.mp hm with hm | hm
      · exact hr hm
      · exact hc hm
    simp [parserTransform, toLines, splitNl_no_nl hno]
  · intro rest chunks
    induction chunks generalizing rest with
    | nil => rfl
    | cons c cs ih => simp [parserRun, ih]
  · intro B d k numbers hlen
    rw [batcherTransform, List.append_nil, pushBatches_eq]
    rw [if_neg]
    intro ⟨h1, h2⟩
    omega
  · intro B d groups hB
    exact batcher_no_empty_batch B hB d groups

theorem empty_group_noop_witness :
    (parserTransform ['1', '2'] ['3', '4']).1 = []
    ∧ (parserRun [] [['a'], ['b', '\n']]).1.length = 2
    ∧ batcherTransform 3 (fun _ => false) 0 [['1']] [] = ([], [['1']], 0)
    ∧ [] ∉ ((batcherRun 2 (fun _ => true) 0 [] [[['1'], ['2'], ['3']]]).1
          ++ batcherFlush (batcherRun 2 (fun _ => true) 0 [] [[['1'], ['2'], ['3']]]).2.1) :=
  ⟨empty_group_noop.1 ['1', '2'] ['3', '4'] (by decide) (by decide),
   empty_group_noop.2.1 [] [['a'], ['b', '\n']],
   empty_group_noop.2.2.1 3 (fun _ => false) 0 [['1']] (by decide),
   empty_group_noop.2.2.2 2 (fun _ => true) [[['1'], ['2'], ['3']]] (by decide)⟩

/-- Claim C2 (the closure defect, visible in the source): the buffer stage
flush never waits for a ready event under any schedule, and on a residual
batch whose push is declined it still pushes end-of-stream and invokes its
completion callback at once — the stage closes without the declined unit ever
being acknowledged as accepted. -/
theorem bufferFlush_completes_without_ack :
    (∀ (d : Nat → Bool) (k : Nat) (numbers : List Str),
        Act.waitReady ∉ bufferFlushTrace d k numbers)
    ∧ bufferFlushTrace (fun _ => true) 0 [['1']]
        = [Act.pushUnit [['1']] false, Act.pushEOF, Act.done] := by
  constructor
  · intro d k numbers
    by_cases h : numbers.length > 0 <;> simp [bufferFlushTrace, h]
  · rfl
